import Mathlib

/-!
Verification of the estafette-gke-preemptible-killer core against its
specification.

The embedding models instants as integers counting nanoseconds since the Go
zero time (January 1 of year 1, 00:00:00 UTC), matching the resolution of
Go durations. A day is 86400 seconds. The reference whitelist window
starts at 2000-01-01T00:00:00Z, which is 730119 days after the zero time
(1999 years of 365 days plus 484 leap days), hence 63082281600 seconds.

The repository vendors only the timespanset wrapper of the go-intervals
library; the inner intervalset package (the structural set algebra) is not
part of the source tree. Its behaviour, as observed through
IntervalsBetween, is therefore modelled from the specification, section
4.1: a canonical ordered list of disjoint, non-adjoining, non-empty spans;
insertion merges overlapping or adjoining spans; subtraction removes,
shrinks or splits overlapping spans; iteration visits spans in ascending
order and never shows two spans that touch (the timespanset wrapper
enforces the non-adjoining part itself via ensureNonAdjoining, so the
canonical-list view is exactly what the whitelist code observes).
-/

namespace GkePK

/-- Nanoseconds per second: Go durations count nanoseconds. -/
def nsec : ℤ := 1000000000

/-- One day, as a Go duration (24 * time.Hour). -/
def day : ℤ := 86400 * nsec

/-- The instant 2000-01-01T00:00:00Z (whitelistStartPrefix plus midnight),
as nanoseconds since the Go zero time: 730119 days. -/
def whitelistStart : ℤ := 63082281600 * nsec

/-- The instant 2000-01-02T00:00:00Z, start of the next day. -/
def whitelistEnd : ℤ := whitelistStart + day

/-- A half-open time span, start and end instants. -/
abbrev Span := ℤ × ℤ

/-- Models time.Parse of the RFC3339 string built by processHours from one
endpoint: whitelistStartPrefix plus the text plus the seconds postfix.
The parse succeeds exactly when the text is a two-digit hour 00..23, a
colon, and a two-digit minute 00..59; the result is the offset from the
start of the reference day, as a duration in nanoseconds. -/
def parseTimeOfDay (s : List Char) : Option ℤ :=
  match s with
  | [h1, h2, c, m1, m2] =>
    if h1.isDigit ∧ h2.isDigit ∧ c = ':' ∧ m1.isDigit ∧ m2.isDigit then
      let hh : ℕ := (h1.toNat - 48) * 10 + (h2.toNat - 48)
      let mm : ℕ := (m1.toNat - 48) * 10 + (m2.toNat - 48)
      if hh ≤ 23 ∧ mm ≤ 59 then some (((hh * 3600 + mm * 60 : ℕ) : ℤ) * nsec) else none
    else none
  | _ => none

/-- Models strings.Split for a one-character separator. -/
def splitOnChar (c : Char) : List Char → List (List Char)
  | [] => [[]]
  | x :: xs =>
    match splitOnChar c xs with
    | [] => [[]]
    | y :: ys => if x = c then [] :: y :: ys else (x :: y) :: ys

/-- The mergeTimespans calls processHours makes for one parsed entry, in
call order. An entry whose end is before its start contains midnight and
is split in two: the code first merges the span from the window start to
the end time, then replaces the end with whitelistEnd and merges the span
from the start time to whitelistEnd. Both resulting spans lie on the
single reference day. -/
def entryOps (startNs endNs : ℤ) : List Span :=
  if endNs < startNs then
    [(whitelistStart, whitelistStart + endNs), (whitelistStart + startNs, whitelistEnd)]
  else
    [(whitelistStart + startNs, whitelistStart + endNs)]

/-- Parses one comma-separated interval of processHours: split on the dash,
require exactly two parts, parse both endpoints. Failure models the panic
on malformed input. -/
def parseEntry (timeInterval : List Char) : Option (List Span) :=
  match splitOnChar '-' timeInterval with
  | [t1, t2] =>
    match parseTimeOfDay t1, parseTimeOfDay t2 with
    | some s, some e => some (entryOps s e)
    | _, _ => none
  | _ => none

/-- The full list of mergeTimespans calls processHours makes for an input
string: empty input is a no-op, otherwise spaces are removed, the string
is split on commas and every entry contributes its operations in order. -/
def processHoursOps (input : String) : Option (List Span) :=
  if input.data = [] then some [] else
  (splitOnChar ',' (input.data.filter (fun c => c ≠ ' '))).foldl
    (fun acc ti =>
      match acc, parseEntry ti with
      | some ops, some more => some (ops ++ more)
      | _, _ => none)
    (some [])

/-- Insertion into the canonical span list (modelled from the spec,
section 4.1, for the missing intervalset package): spans strictly before
the new span are kept, spans overlapping or adjoining it are merged into
it, and the result is spliced back in order. -/
def insertSpan (s e : ℤ) : List Span → List Span
  | [] => [(s, e)]
  | (a, b) :: rest =>
    if b < s then (a, b) :: insertSpan s e rest
    else if e < a then (s, e) :: (a, b) :: rest
    else insertSpan (min s a) (max e b) rest

/-- Subtraction of one span from the canonical span list (modelled from
the spec, section 4.1): each overlapping span is removed, shrunk or split. -/
def subSpan (s e : ℤ) : List Span → List Span
  | [] => []
  | (a, b) :: rest =>
    if b ≤ s then (a, b) :: subSpan s e rest
    else if e ≤ a then (a, b) :: rest
    else (if a < s then [(a, s)] else []) ++ (if e < b then [(e, b)] else []) ++ subSpan s e rest

/-- One mergeTimespans call: plus inserts, minus subtracts. A zero-length
span changes nothing (confirmed by the repository test for mergeTimespans
with an empty interval in both directions). -/
def mergeOp (w : List Span) (op : Span) (plus : Bool) : List Span :=
  if op.2 ≤ op.1 then w
  else if plus then insertSpan op.1 op.2 w else subSpan op.1 op.2 w

/-- Applies the operations of one processHours call to the whitelist set. -/
def applyOps (w : List Span) (ops : List Span) (plus : Bool) : List Span :=
  ops.foldl (fun acc op => mergeOp acc op plus) w

/-- processHours: parse the input and apply every merge operation to the
set; none models the panic on malformed input. -/
def processHours (w : List Span) (input : String) (plus : Bool) : Option (List Span) :=
  (processHoursOps input).map (fun ops => applyOps w ops plus)

/-- updateWhitelistSecondCount accumulated over IntervalsBetween of the
whole reference window: the sum of the span lengths in whole seconds.
All spans produced by parsing lie inside the window, so the clipping of
IntervalsBetween is the identity here. -/
def secondCount (spans : List Span) : ℤ :=
  spans.foldl (fun acc p => acc + (p.2 - p.1) / nsec) 0

/-- parseArguments: an empty whitelist is replaced by the full-day default
so that a blacklist can still be subtracted; then the blacklist is
subtracted and the second count computed. The result is the final span
list together with whitelistSecondCount. -/
def parseArguments (whitelist blacklist : String) : Option (List Span × ℤ) :=
  match processHours [] (if whitelist.data = [] then "00:00 - 12:00, 12:00 - 00:00" else whitelist) true with
  | none => none
  | some w1 =>
    match processHours w1 blacklist false with
    | none => none
    | some w2 => some (w2, secondCount w2)

/-- The start the callback of getExpiryDate works with: on the first pass
a span beginning before the projected creation is clipped to start at the
projected creation. -/
def effStart (pc s : ℤ) (first : Bool) : ℤ :=
  if first = true ∧ s < pc then pc else s

/-- The projection of a landing instant back to real time: if the expiry
would fall before the creation instant, one day is added. -/
def landPoint (t v : ℤ) : ℤ :=
  if v < t then v + day else v

/-- One IntervalsBetween pass of getExpiryDate over the whitelisted spans:
the callback of the source, with the mutable locals made explicit. For
the first pass only, spans ending before the projected creation are
skipped and the span containing the projected creation is clipped to
start there (effStart). When the remaining budget fits inside the current
span the expiry is set to the landing point projected back to real time
(landPoint). The budget is decreased by the span duration and iteration
continues while it stays positive. Returns the final budget and expiry. -/
def passSpans (t pc tc : ℤ) (first : Bool) : List Span → ℤ → ℤ → ℤ × ℤ
  | [], budget, expiry => (budget, expiry)
  | (s, e) :: rest, budget, expiry =>
    if first = true ∧ e < pc then passSpans t pc tc first rest budget expiry
    else
      if 0 < budget - (e - effStart pc s first) then
        passSpans t pc tc first rest (budget - (e - effStart pc s first))
          (if budget ≤ e - effStart pc s first
            then landPoint t (tc + (effStart pc s first + budget - whitelistStart))
            else expiry)
      else
        (budget - (e - effStart pc s first),
          if budget ≤ e - effStart pc s first
            then landPoint t (tc + (effStart pc s first + budget - whitelistStart))
            else expiry)

/-- The outer loop of getExpiryDate (for timeToBeAdded greater than zero),
with an explicit fuel bounding the number of reference-window scans: the
source loop has no bound of its own, and the fuel counts how many passes
over the whitelisted intervals are allowed before we give up observing
the loop. none therefore means the loop is still running after that many
scans. -/
def getExpiryLoop (spans : List Span) (t tc pc : ℤ) : ℕ → Bool → ℤ → ℤ → Option ℤ
  | 0, _, budget, expiry => if budget ≤ 0 then some expiry else none
  | f + 1, first, budget, expiry =>
    if budget ≤ 0 then some expiry
    else
      let r := passSpans t pc tc first spans budget expiry
      getExpiryLoop spans t tc pc f false r.1 r.2

/-- getExpiryDate: truncate the creation instant to its day (Truncate
rounds down since the Go zero time), project the creation onto the
reference window, then consume the budget across the whitelisted spans.
The expiry accumulator starts at the Go zero value, instant 0. -/
def getExpiryDate (spans : List Span) (t timeToBeAdded : ℤ) (fuel : ℕ) : Option ℤ :=
  getExpiryLoop spans t (day * (t / day)) (whitelistStart + (t - day * (t / day)))
    fuel true timeToBeAdded 0

/-- The total duration covered by a span list, in nanoseconds. For the
whitelist sets this is the allowed time per reference day, and equals
whitelistSecondCount scaled by nsec. -/
def totalDur : List Span → ℤ
  | [] => 0
  | p :: rest => (p.2 - p.1) + totalDur rest

/-- Well-formedness of a whitelist span list as built by parseArguments:
every span lies inside the reference window and has a nonnegative
duration. -/
abbrev SpanWF (spans : List Span) : Prop :=
  ∀ p ∈ spans, whitelistStart ≤ p.1 ∧ p.1 ≤ p.2 ∧ p.2 ≤ whitelistEnd

/-- The landing property of a getExpiryDate result: relative to the day
of the creation instant (tc is the truncated creation), possibly shifted
one day later, the result sits strictly after the start and at most at
the end of some configured span. -/
def LandsIn (spans : List Span) (tc x : ℤ) : Prop :=
  ∃ p ∈ spans, ∃ σ : ℤ, p.1 < σ ∧ σ ≤ p.2 ∧
    (x = tc + (σ - whitelistStart) ∨ x = tc + (σ - whitelistStart) + day)

-- Sanity checks of the model on concrete inputs (the repository test for
-- processHours expects 21600 seconds for these arguments).
example : (parseArguments "" "").map (fun r => r.2) = some 86400 := by decide
example :
    (parseArguments "00:00 - 04:00, 08:00 - 12:00, 16:00 - 20:00"
      "01:00 - 02:00, 06:00 - 14:00, 15:00 - 17:00").map (fun r => r.2) = some 21600 := by
  decide

/-- The instant 2017-11-11T12:00:00Z: unix second 1510401600, which is
62135596800 seconds after the Go zero time plus that. -/
def creation2017 : ℤ := 63645998400 * nsec

/-- The expiry computed by getDesiredNodeState, with the call to the
random source made explicit: r stands for the value returned by
Intn(kickOffDeletionBy), which the caller of this model constrains to
0 <= r < kickOffDeletionBy (Intn is only invoked when that bound is
positive, and panics otherwise). All duration arithmetic is in
nanoseconds; the float64 round-trips through math.Max are exact at these
magnitudes (below 2 to the 53rd). -/
def getDesiredExpiry (spans : List Span) (now creationTime drainTimeoutSec r : ℤ)
    (fuel : ℕ) : Option ℤ :=
  let twelveHours := 12 * 3600 * nsec
  let twentyFourHours := 24 * 3600 * nsec
  let drainTimeoutTime := drainTimeoutSec * nsec
  let nodeDeletedBy := creationTime + twentyFourHours
  let expectedRemainingLife := max (nodeDeletedBy - now) 0
  let kickOffDeletionBy := max (expectedRemainingLife - drainTimeoutTime) 0
  let randomOffset0 := if 0 < kickOffDeletionBy then r else 0
  let randomOffset :=
    if twelveHours < expectedRemainingLife ∧ randomOffset0 < twelveHours
      then randomOffset0 + twelveHours else randomOffset0
  getExpiryDate spans now randomOffset fuel

/-- The termination decision of processNode: timeDiff is the expiry minus
now (Minutes only rescales by a positive constant, so its sign is the
sign of the nanosecond difference), and the node is deleted exactly when
timeDiff is negative. -/
def processNodeDecision (now expiryDatetime : ℤ) : Bool :=
  decide (expiryDatetime - now < 0)

/-- The value DrainNode returns, as a function of the error of each pod
deletion issued in the initial batch (none for success, in order) and of
which branch of the final select fires first (timedOut is true when the
drainTimeout timer wins the race against the done channel). The named
return err holds whatever the last pod deletion assigned to it, and both
select branches return it unchanged. -/
def drainNode (podDeleteResults : List (Option String)) (timedOut : Bool) : Option String :=
  let err := podDeleteResults.foldl (fun _ r => r) (none : Option String)
  if timedOut then err else err

/-- ApplyJitter, with the call to the random source made explicit: r
stands for the value returned by Intn(2 * deviation), constrained by the
caller to 0 <= r < 2 * deviation. none models the panic of Intn when its
argument is not positive. The conversion int(0.25 * float64(input))
equals input / 4 whenever 0 <= input < 2 to the 53rd, where float64
holds input exactly. -/
def applyJitter (input r : ℤ) : Option ℤ :=
  let deviation := input / 4
  if 2 * deviation ≤ 0 then none
  else some (input - deviation + r)

/-- An owner reference of a pod; only the Kind field is inspected. -/
structure OwnerReference where
  kind : String
deriving DecidableEq

/-- A pod, reduced to the fields filterOutPodByOwnerReferenceKind reads. -/
structure Pod where
  name : String
  ownerReferences : List OwnerReference
deriving DecidableEq

/-- The inner loop of filterOutPodByOwnerReferenceKind: the pod is
appended to the output once for every owner reference whose Kind differs
from the given kind. -/
def appendPodPerRef (pod : Pod) (kind : String) : List OwnerReference → List Pod
  | [] => []
  | ref :: rest =>
    if ref.kind ≠ kind then pod :: appendPodPerRef pod kind rest
    else appendPodPerRef pod kind rest

/-- filterOutPodByOwnerReferenceKind: for every pod of the list, for every
of its owner references, the pod is appended when the Kind differs. -/
def filterOutPodByOwnerReferenceKind : List Pod → String → List Pod
  | [], _ => []
  | pod :: rest, kind =>
    appendPodPerRef pod kind pod.ownerReferences ++ filterOutPodByOwnerReferenceKind rest kind

/-- Over an empty whitelist set a pass consumes nothing, so the outer loop
of getExpiryDate never finishes for a positive budget, whatever the fuel. -/
lemma getExpiryLoop_nil (t tc pc : ℤ) :
    ∀ (fuel : ℕ) (first : Bool) (budget expiry : ℤ), 0 < budget →
      getExpiryLoop [] t tc pc fuel first budget expiry = none := by
  intro fuel
  induction fuel with
  | zero =>
    intro first budget expiry h
    simp only [getExpiryLoop]
    rw [if_neg (by omega)]
  | succ f ih =>
    intro first budget expiry h
    simp only [getExpiryLoop, passSpans]
    rw [if_neg (by omega)]
    exact ih false budget expiry h

/-- C1, counterexample. The claim includes the boundary case of a zero
duration, but with timeToBeAdded = 0 the loop body of getExpiryDate never
runs and the zero value of time.Time (the instant 0, January 1 of year 1)
is returned, which is before the creation instant and inside no span of
the configured whitelist. Config: the unrestricted default whitelist. -/
theorem c1_counterexample :
    getExpiryDate [(whitelistStart, whitelistEnd)] creation2017 0 4 = some 0 ∧
    (0 : ℤ) < creation2017 := by decide

/-- C3. The degenerate configuration whose blacklist cancels the whole
default whitelist is accepted by parseArguments without any error, with
whitelistSecondCount = 0; getExpiryDate entered with this policy and any
positive duration never terminates (the model returns none for every
scan bound), instead of the fatal configuration-time error the claim
describes. -/
theorem c3_zero_allowed_config_accepted :
    parseArguments "" "00:00 - 12:00, 12:00 - 00:00" = some ([], 0) ∧
    ∀ fuel : ℕ, getExpiryDate [] creation2017 nsec fuel = none := by
  refine ⟨by decide, ?_⟩
  intro fuel
  unfold getExpiryDate
  exact getExpiryLoop_nil _ _ _ fuel true nsec 0 (by decide)

/-- C4, counterexample. The whitelist 09:00 - 12:00 is accepted with
10800 allowed seconds per day; for a creation at 2000-01-01T13:00:00Z and
a budget of 27000 seconds (2.5 times the allowed seconds, below the small
multiple of three the claim allows), the scan loop is still running after
3 reference-window scans and needs a 4th, after which it returns a
timestamp: nothing surfaces an internal error when the 2-3 scan bound of
the claim is exceeded. -/
theorem c4_counterexample :
    parseArguments "09:00 - 12:00" ""
      = some ([(whitelistStart + 32400 * nsec, whitelistStart + 43200 * nsec)], 10800) ∧
    27000 * nsec ≤ 3 * (10800 * nsec) ∧
    getExpiryDate [(whitelistStart + 32400 * nsec, whitelistStart + 43200 * nsec)]
      (whitelistStart + 46800 * nsec) (27000 * nsec) 3 = none ∧
    getExpiryDate [(whitelistStart + 32400 * nsec, whitelistStart + 43200 * nsec)]
      (whitelistStart + 46800 * nsec) (27000 * nsec) 4
      = some (whitelistStart + 124200 * nsec) := by decide

/-- C5. When the drain timeout fires first while every pod deletion of
the initial batch succeeded, DrainNode returns the nil error, the very
value of the success path: the caller cannot distinguish a timed-out
drain from a completed one. -/
theorem c5_timeout_indistinguishable :
    drainNode [none] true = none ∧ drainNode [none] true = drainNode [none] false :=
  ⟨rfl, rfl⟩

/-- C6, counterexample. At now equal to the expiry instant the time
difference is zero, not negative, so processNode keeps the node, while
the claim says termination begins exactly when now is at or after the
expiry. -/
theorem c6_counterexample :
    processNodeDecision creation2017 creation2017 = false ∧ creation2017 ≤ creation2017 := by
  decide

/-- C6, amended: processNode begins the termination sequence if and only
if now is strictly after the parsed expiry instant; in particular the
decision is false whenever the expiry is at or after now, which covers
the instant right after the desired expiry is computed with the same now,
since that expiry is never before now. -/
theorem c6_amended :
    (∀ now expiryDatetime : ℤ, processNodeDecision now expiryDatetime = true ↔ expiryDatetime < now) ∧
    (∀ now expiryDatetime : ℤ, now ≤ expiryDatetime → processNodeDecision now expiryDatetime = false) := by
  constructor
  · intro now x
    simp only [processNodeDecision, decide_eq_true_eq]
    omega
  · intro now x h
    simp only [processNodeDecision, decide_eq_false_iff_not]
    omega

/-- C6, witness for the amended statement at concrete instants. -/
theorem c6_witness :
    processNodeDecision 5 3 = true ∧ processNodeDecision 3 5 = false :=
  ⟨(c6_amended.1 5 3).mpr (by decide), c6_amended.2 3 5 (by decide)⟩

/-- C7, counterexample. For the midnight-crossing entry 22:00 - 02:00 the
code does make exactly two sub-insertions, but both lie on the single
reference day: the wrapped part is inserted as the span from the window
start to 02:00 of the SAME reference day, not on a following day of the
window (every inserted endpoint is at most whitelistEnd, and no inserted
span starts at or after whitelistEnd). -/
theorem c7_counterexample :
    processHoursOps "22:00 - 02:00"
      = some [(whitelistStart, whitelistStart + 7200 * nsec),
              (whitelistStart + 79200 * nsec, whitelistEnd)] ∧
    (∀ p ∈ [(whitelistStart, whitelistStart + 7200 * nsec),
            (whitelistStart + 79200 * nsec, whitelistEnd)],
      p.1 < whitelistEnd ∧ p.2 ≤ whitelistEnd) := by decide

/-- C7, amended: every entry whose end time is before its start time is
split into exactly two sub-insertions, the span from the day start to the
end time and the span from the start time to the day end, both within the
single reference day and merged in this order into the same interval
set. -/
theorem c7_amended : ∀ s e : ℤ, 0 ≤ e → e < s → s < day →
    entryOps s e = [(whitelistStart, whitelistStart + e), (whitelistStart + s, whitelistEnd)] ∧
    (∀ (w : List Span) (plus : Bool),
      applyOps w (entryOps s e) plus
        = mergeOp (mergeOp w (whitelistStart, whitelistStart + e) plus)
            (whitelistStart + s, whitelistEnd) plus) ∧
    whitelistStart ≤ whitelistStart + e ∧ whitelistStart + e ≤ whitelistEnd ∧
    whitelistStart ≤ whitelistStart + s ∧ whitelistStart + s ≤ whitelistEnd := by
  intro s e he hes hs
  have h1 : entryOps s e
      = [(whitelistStart, whitelistStart + e), (whitelistStart + s, whitelistEnd)] := by
    unfold entryOps
    rw [if_pos hes]
  refine ⟨h1, ?_, by omega, ?_, by omega, ?_⟩
  · intro w plus
    rw [h1]
    rfl
  · unfold whitelistEnd
    omega
  · unfold whitelistEnd
    omega

/-- C7, witness for the amended statement at the 22:00 - 02:00 entry. -/
theorem c7_witness :
    entryOps (79200 * nsec) (7200 * nsec)
      = [(whitelistStart, whitelistStart + 7200 * nsec),
         (whitelistStart + 79200 * nsec, whitelistEnd)] ∧
    applyOps [] (entryOps (79200 * nsec) (7200 * nsec)) true
      = mergeOp (mergeOp [] (whitelistStart, whitelistStart + 7200 * nsec) true)
          (whitelistStart + 79200 * nsec, whitelistEnd) true := by
  have h := c7_amended (79200 * nsec) (7200 * nsec) (by decide) (by decide) (by decide)
  exact ⟨h.1, h.2.1 [] true⟩

/-- C8, counterexample. For the positive input 1 the computed deviation
is zero and rand.Intn is called with a non-positive argument, which
panics: ApplyJitter does not return a value for every positive input. -/
theorem c8_counterexample : applyJitter 1 0 = none ∧ (0 : ℤ) < 1 := by decide

/-- C8, amended: for every input of at least 4 (within the range where
the float64 conversion is exact), and every possible draw of the random
source, ApplyJitter returns a value in the half-open range from 0.75
times the input to 1.25 times the input. -/
theorem c8_amended : ∀ n r : ℤ, 4 ≤ n → n < 2 ^ 53 → 0 ≤ r → r < 2 * (n / 4) →
    ∃ v, applyJitter n r = some v ∧ 3 * n ≤ 4 * v ∧ 4 * v < 5 * n := by
  intro n r h4 _ hr0 hr
  refine ⟨n - n / 4 + r, ?_, by omega, by omega⟩
  unfold applyJitter
  rw [if_neg (by omega)]

/-- C8, witness for the amended statement at input 4 and draw 0. -/
theorem c8_witness :
    ∃ v, applyJitter 4 0 = some v ∧ 3 * 4 ≤ 4 * v ∧ 4 * v < 5 * 4 :=
  c8_amended 4 0 (by decide) (by decide) (by decide) (by decide)

/-- C9. The whitelist 09:00 - 12:00, 13:00 - 18:00 minus the blacklist
10:00 - 11:00 yields the three spans 09:00-10:00, 11:00-12:00 and
13:00-18:00 and whitelistSecondCount = (3*3600 - 3600) + 5*3600. -/
theorem c9_secondcount :
    parseArguments "09:00 - 12:00, 13:00 - 18:00" "10:00 - 11:00"
      = some ([(whitelistStart + 32400 * nsec, whitelistStart + 36000 * nsec),
               (whitelistStart + 39600 * nsec, whitelistStart + 43200 * nsec),
               (whitelistStart + 46800 * nsec, whitelistStart + 64800 * nsec)],
              (3 * 3600 - 3600) + 5 * 3600) := by decide

/-- C2, counterexample. Node created at 2017-11-11T12:00:00Z, drain
timeout 300, unrestricted whitelist, evaluated at now = creation: the
random draw 43000 seconds (within Intn(kickOffDeletionBy) = Intn(86100s))
is below twelve hours, so the bias adds twelve hours and the offset
becomes 86200 seconds, past kickOffDeletionBy; the resulting expiry
exceeds creation + 24h - 300s, the upper bound of the claim. -/
theorem c2_counterexample :
    (0 : ℤ) ≤ 43000 * nsec ∧ 43000 * nsec < 86100 * nsec ∧
    getDesiredExpiry [(whitelistStart, whitelistEnd)] creation2017 creation2017 300
      (43000 * nsec) 4 = some (creation2017 + 86200 * nsec) ∧
    creation2017 + (24 * 3600 - 300) * nsec < creation2017 + 86200 * nsec := by decide

/-- The inner loop of the pod filter appends one copy of the pod per
owner reference whose Kind differs from the given kind. -/
lemma appendPodPerRef_eq_replicate (pod : Pod) (kind : String) :
    ∀ refs : List OwnerReference,
      appendPodPerRef pod kind refs
        = List.replicate ((refs.filter (fun r => r.kind ≠ kind)).length) pod := by
  intro refs
  induction refs with
  | nil => rfl
  | cons ref rest ih =>
    by_cases h : ref.kind ≠ kind
    · simp [appendPodPerRef, h, List.filter_cons, ih, List.replicate_succ]
    · simp [appendPodPerRef, h, List.filter_cons, ih]

/-- C10. A pod with no owner references never appears in the output of
filterOutPodByOwnerReferenceKind, and a pod is appended once per owner
reference whose Kind differs from the given kind, so a pod with several
non-matching owner references appears that many times. -/
theorem c10_filter_out :
    ∀ (podList : List Pod) (kind : String),
      (∀ p : Pod, p.ownerReferences = [] → p ∉ filterOutPodByOwnerReferenceKind podList kind) ∧
      (∀ p : Pod, filterOutPodByOwnerReferenceKind [p] kind
          = List.replicate ((p.ownerReferences.filter (fun r => r.kind ≠ kind)).length) p) := by
  intro podList kind
  constructor
  · intro p hp
    induction podList with
    | nil => simp [filterOutPodByOwnerReferenceKind]
    | cons q rest ih =>
      simp only [filterOutPodByOwnerReferenceKind, List.mem_append]
      rintro (hmem | hmem)
      · rw [appendPodPerRef_eq_replicate] at hmem
        have hq : p = q := List.eq_of_mem_replicate hmem
        subst hq
        rw [hp] at hmem
        simp at hmem
      · exact ih hmem
  · intro p
    simp only [filterOutPodByOwnerReferenceKind, List.append_nil]
    exact appendPodPerRef_eq_replicate p kind p.ownerReferences

/-- C10, witness: a pod with no owner references is excluded, and a pod
with two non-DaemonSet owner references appears twice. -/
theorem c10_witness :
    (Pod.mk "a" [] ∉ filterOutPodByOwnerReferenceKind [Pod.mk "a" []] "DaemonSet") ∧
    filterOutPodByOwnerReferenceKind
        [Pod.mk "b" [OwnerReference.mk "ReplicaSet", OwnerReference.mk "Job"]] "DaemonSet"
      = List.replicate 2 (Pod.mk "b" [OwnerReference.mk "ReplicaSet", OwnerReference.mk "Job"]) := by
  refine ⟨(c10_filter_out [Pod.mk "a" []] "DaemonSet").1 _ rfl, ?_⟩
  rw [(c10_filter_out [] "DaemonSet").2]
  decide

/-- Landing in a sublist lands in the extended list. -/
lemma landsIn_cons (q : Span) (spans : List Span) (tc x : ℤ) (h : LandsIn spans tc x) :
    LandsIn (q :: spans) tc x := by
  obtain ⟨p, hp, hrest⟩ := h
  exact ⟨p, List.mem_cons_of_mem _ hp, hrest⟩

/-- On a pass that is not the first, the effective start is the span start. -/
lemma effStart_false (pc s : ℤ) : effStart pc s false = s := by
  unfold effStart
  simp

/-- Bounds on the effective start of a span that is not skipped. -/
lemma effStart_bounds (pc s e : ℤ) (first : Bool) (hpc0 : whitelistStart ≤ pc)
    (hws : whitelistStart ≤ s) (hse : s ≤ e) (hns : ¬(first = true ∧ e < pc)) :
    s ≤ effStart pc s first ∧ whitelistStart ≤ effStart pc s first ∧ effStart pc s first ≤ e := by
  unfold effStart
  split_ifs with h
  · exact ⟨le_of_lt h.2, hpc0, le_of_not_lt fun hlt => hns ⟨h.1, hlt⟩⟩
  · exact ⟨le_refl s, hws, hse⟩

/-- The day fix-up of the landing instant never lands before the creation
instant, and changes the projected value by zero or one day. -/
lemma landPoint_spec (t tc v : ℤ) (hv : tc < v) (ht2 : t < tc + day) :
    t ≤ landPoint t v ∧ (landPoint t v = v ∨ landPoint t v = v + day) := by
  unfold landPoint
  split_ifs with h
  · exact ⟨by omega, Or.inr rfl⟩
  · exact ⟨by omega, Or.inl rfl⟩

/-- Case analysis of one pass over the whitelisted spans: either the
budget survives the pass, decreased by the covered duration (the full
total on every pass but the first), or the pass stops with a spent budget
and an expiry that is at least the creation instant and lands inside one
of the spans, up to a day shift. -/
lemma passSpans_cases (t tc pc : ℤ) (ht2 : t < tc + day) (hpc0 : whitelistStart ≤ pc) :
    ∀ (spans : List Span), SpanWF spans → ∀ (first : Bool) (budget expiry : ℤ), 0 < budget →
      (∃ C : ℤ, 0 ≤ C ∧ (first = false → C = totalDur spans) ∧
        passSpans t pc tc first spans budget expiry = (budget - C, expiry) ∧ 0 < budget - C) ∨
      ((passSpans t pc tc first spans budget expiry).1 ≤ 0 ∧
        t ≤ (passSpans t pc tc first spans budget expiry).2 ∧
        LandsIn spans tc (passSpans t pc tc first spans budget expiry).2) := by
  intro spans
  induction spans with
  | nil =>
    intro _ first budget expiry hb
    left
    exact ⟨0, le_refl 0, fun _ => rfl, by simp [passSpans], by omega⟩
  | cons p rest ih =>
    obtain ⟨s, e⟩ := p
    intro hwf first budget expiry hb
    obtain ⟨hws, hse, hew⟩ := hwf (s, e) (List.mem_cons_self _ _)
    have hwfr : SpanWF rest := fun q hq => hwf q (List.mem_cons_of_mem _ hq)
    by_cases h1 : first = true ∧ e < pc
    · have heq : passSpans t pc tc first ((s, e) :: rest) budget expiry
          = passSpans t pc tc first rest budget expiry := by
        simp only [passSpans]
        rw [if_pos h1]
      rw [heq]
      rcases ih hwfr first budget expiry hb with ⟨C, hC0, _, hCeq, hCpos⟩ | ⟨ha, hbb, hc⟩
      · left
        refine ⟨C, hC0, fun hf => ?_, hCeq, hCpos⟩
        rw [hf] at h1
        exact absurd h1.1 (by simp)
      · right
        exact ⟨ha, hbb, landsIn_cons _ _ _ _ hc⟩
    · obtain ⟨hb1, hb2, hb3⟩ := effStart_bounds pc s e first hpc0 hws hse h1
      by_cases h2 : 0 < budget - (e - effStart pc s first)
      · have hni : ¬ (budget ≤ e - effStart pc s first) := by omega
        have heq : passSpans t pc tc first ((s, e) :: rest) budget expiry
            = passSpans t pc tc first rest (budget - (e - effStart pc s first)) expiry := by
          simp only [passSpans]
          rw [if_neg h1, if_pos h2, if_neg hni]
        rw [heq]
        rcases ih hwfr first (budget - (e - effStart pc s first)) expiry h2 with
          ⟨C, hC0, hCf, hCeq, hCpos⟩ | ⟨ha, hbb, hc⟩
        · left
          refine ⟨(e - effStart pc s first) + C, by omega, fun hf => ?_, ?_, by omega⟩
          · rw [hCf hf, hf, effStart_false]
            rfl
          · rw [hCeq, sub_sub]
        · right
          exact ⟨ha, hbb, landsIn_cons _ _ _ _ hc⟩
      · have h3 : budget ≤ e - effStart pc s first := by omega
        have heq : passSpans t pc tc first ((s, e) :: rest) budget expiry
            = (budget - (e - effStart pc s first),
               landPoint t (tc + (effStart pc s first + budget - whitelistStart))) := by
          simp only [passSpans]
          rw [if_neg h1, if_neg h2, if_pos h3]
        rw [heq]
        right
        have hv : tc < tc + (effStart pc s first + budget - whitelistStart) := by omega
        obtain ⟨hl1, hl2⟩ := landPoint_spec t tc _ hv ht2
        refine ⟨by omega, hl1,
          (s, e), List.mem_cons_self _ _, effStart pc s first + budget, by omega, by omega, ?_⟩
        rcases hl2 with h | h
        · exact Or.inl h
        · exact Or.inr h

/-- Once a pass has spent the budget, the loop returns the computed
expiry whatever fuel remains. -/
lemma getExpiryLoop_of_landed (spans : List Span) (t tc pc : ℤ) (n : ℕ) (b x : ℤ)
    (hb : b ≤ 0) : getExpiryLoop spans t tc pc n false b x = some x := by
  cases n <;> simp only [getExpiryLoop] <;> rw [if_pos hb]

/-- One unfolding of the scan loop while the budget is positive. -/
lemma getExpiryLoop_step (spans : List Span) (t tc pc : ℤ) (n : ℕ) (first : Bool)
    (budget expiry : ℤ) (hb : 0 < budget) :
    getExpiryLoop spans t tc pc (n + 1) first budget expiry
      = getExpiryLoop spans t tc pc n false (passSpans t pc tc first spans budget expiry).1
          (passSpans t pc tc first spans budget expiry).2 := by
  simp only [getExpiryLoop]
  rw [if_neg (by omega)]

/-- Four reference-window scans always suffice: for a well-formed span
list and a positive budget of at most three times the total covered
duration, the scan loop returns an expiry at least the creation instant
that lands inside one of the spans. -/
lemma getExpiryLoop_lands (spans : List Span) (t tc pc : ℤ) (hwf : SpanWF spans)
    (ht2 : t < tc + day) (hpc0 : whitelistStart ≤ pc) (budget expiry : ℤ) (first : Bool)
    (hb : 0 < budget) (hb3 : budget ≤ 3 * totalDur spans) :
    ∃ x, getExpiryLoop spans t tc pc 4 first budget expiry = some x ∧
      t ≤ x ∧ LandsIn spans tc x := by
  rw [getExpiryLoop_step spans t tc pc 3 first budget expiry hb]
  rcases passSpans_cases t tc pc ht2 hpc0 spans hwf first budget expiry hb with
    ⟨C1, hC10, _, heq1, hpos1⟩ | ⟨h1a, h1b, h1c⟩
  · rw [heq1]
    dsimp only
    rw [getExpiryLoop_step spans t tc pc 2 false _ expiry hpos1]
    rcases passSpans_cases t tc pc ht2 hpc0 spans hwf false (budget - C1) expiry hpos1 with
      ⟨C2, _, hC2f, heq2, hpos2⟩ | ⟨h2a, h2b, h2c⟩
    · have hC2 : C2 = totalDur spans := hC2f rfl
      rw [heq2]
      dsimp only
      rw [getExpiryLoop_step spans t tc pc 1 false _ expiry hpos2]
      rcases passSpans_cases t tc pc ht2 hpc0 spans hwf false (budget - C1 - C2) expiry hpos2 with
        ⟨C3, _, hC3f, heq3, hpos3⟩ | ⟨h3a, h3b, h3c⟩
      · have hC3 : C3 = totalDur spans := hC3f rfl
        rw [heq3]
        dsimp only
        rw [getExpiryLoop_step spans t tc pc 0 false _ expiry hpos3]
        rcases passSpans_cases t tc pc ht2 hpc0 spans hwf false (budget - C1 - C2 - C3) expiry
            hpos3 with ⟨C4, _, hC4f, heq4, hpos4⟩ | ⟨h4a, h4b, h4c⟩
        · exfalso
          have hC4 : C4 = totalDur spans := hC4f rfl
          omega
        · exact ⟨_, getExpiryLoop_of_landed spans t tc pc 0 _ _ h4a, h4b, h4c⟩
      · exact ⟨_, getExpiryLoop_of_landed spans t tc pc 1 _ _ h3a, h3b, h3c⟩
    · exact ⟨_, getExpiryLoop_of_landed spans t tc pc 2 _ _ h2a, h2b, h2c⟩
  · exact ⟨_, getExpiryLoop_of_landed spans t tc pc 3 _ _ h1a, h1b, h1c⟩

/-- The landing theorem transported to getExpiryDate. -/
lemma getExpiryDate_lands (spans : List Span) (hwf : SpanWF spans) (t d : ℤ)
    (hd : 0 < d) (hd3 : d ≤ 3 * totalDur spans) :
    ∃ x, getExpiryDate spans t d 4 = some x ∧ t ≤ x ∧ LandsIn spans (day * (t / day)) x := by
  have hday : day = 86400000000000 := by norm_num [day, nsec]
  unfold getExpiryDate
  exact getExpiryLoop_lands spans t _ _ hwf (by rw [hday]; omega) (by rw [hday]; omega)
    d 0 true hd hd3

/-- C1, amended: for every well-formed configured span list, every
creation instant and every duration d with 0 < d and d at most three
times the allowed time per day, getExpiryDate returns an instant at
least the creation instant whose position in the reference pattern is
strictly after the start and at most at the end of some allowed span
(the excluded end is reachable when the budget exactly exhausts a span;
the original claim failed at d = 0, where the Go zero time is returned,
and in asking for a strict interior). -/
theorem c1_amended (spans : List Span) (hwf : SpanWF spans) (t d : ℤ)
    (hd : 0 < d) (hd3 : d ≤ 3 * totalDur spans) :
    ∃ x, getExpiryDate spans t d 4 = some x ∧ t ≤ x ∧ LandsIn spans (day * (t / day)) x :=
  getExpiryDate_lands spans hwf t d hd hd3

/-- C1, witness for the amended statement: the unrestricted whitelist,
creation 2017-11-11T12:00:00Z, budget one second. -/
theorem c1_witness :
    ∃ x, getExpiryDate [(whitelistStart, whitelistEnd)] creation2017 nsec 4 = some x ∧
      creation2017 ≤ x ∧
      LandsIn [(whitelistStart, whitelistEnd)] (day * (creation2017 / day)) x :=
  c1_amended [(whitelistStart, whitelistEnd)] (by decide) creation2017 nsec
    (by decide) (by decide)

/-- C4, amended: whenever the configured policy has a positive allowed
duration, the wraparound loop terminates within four reference-window
scans for every budget of at most three times that duration (d at most
2 times the allowed duration needs only three scans, but three can be
exceeded within the premises of the claim, see the counterexample); and
the code has no internal-error surfacing at all: over the accepted
zero-allowed configuration, whose span list is empty, the loop simply
never terminates, whatever scan bound is observed. -/
theorem c4_amended :
    (∀ spans : List Span, SpanWF spans → ∀ t d : ℤ, 0 < d → d ≤ 3 * totalDur spans →
      (getExpiryDate spans t d 4).isSome = true) ∧
    (∀ (t d : ℤ) (fuel : ℕ), 0 < d → getExpiryDate [] t d fuel = none) := by
  constructor
  · intro spans hwf t d hd hd3
    obtain ⟨x, hx, -, -⟩ := getExpiryDate_lands spans hwf t d hd hd3
    rw [hx]
    rfl
  · intro t d fuel hd
    unfold getExpiryDate
    exact getExpiryLoop_nil _ _ _ fuel true d 0 hd

/-- C4, witness for the amended statement: termination within four scans
on the 09:00 - 12:00 policy, and divergence on the empty policy. -/
theorem c4_witness :
    (getExpiryDate [(whitelistStart + 32400 * nsec, whitelistStart + 43200 * nsec)]
      (whitelistStart + 46800 * nsec) (27000 * nsec) 4).isSome = true ∧
    getExpiryDate [] creation2017 nsec 9 = none :=
  ⟨c4_amended.1 _ (by decide) _ _ (by decide) (by decide),
   c4_amended.2 creation2017 nsec 9 (by decide)⟩

/-- Over the unrestricted whitelist (the single full-day span), the
expiry of a budget strictly below one day is exactly the creation instant
plus the budget: either the budget fits in the remainder of the creation
day, or it wraps once and the day fix-up brings it back to creation plus
budget. -/
lemma getExpiryDate_fullday (t d : ℤ) (hd : 0 < d) (hdlt : d < day) :
    getExpiryDate [(whitelistStart, whitelistEnd)] t d 4 = some (t + d) := by
  have hday : day = 86400000000000 := by norm_num [day, nsec]
  have hwE : whitelistEnd = whitelistStart + day := rfl
  unfold getExpiryDate
  set tc := day * (t / day) with htc
  set pc := whitelistStart + (t - tc) with hpc
  have hr0 : 0 ≤ t - tc := by rw [htc, hday]; omega
  have hr1 : t - tc < day := by rw [htc, hday]; omega
  have hpc0 : whitelistStart ≤ pc := by rw [hpc]; omega
  have hpcE : pc < whitelistEnd := by rw [hwE, hpc]; omega
  rw [getExpiryLoop_step _ t tc pc 3 true d 0 hd]
  have hskip1 : ¬(True ∧ whitelistEnd < pc) := fun h => absurd h.2 (by omega)
  have heff1 : effStart pc whitelistStart true = pc := by
    unfold effStart
    split_ifs with h
    · rfl
    · simp only [true_and, not_lt] at h
      omega
  by_cases hcase : d ≤ whitelistEnd - pc
  · have hpass : passSpans t pc tc true [(whitelistStart, whitelistEnd)] d 0
        = (d - (whitelistEnd - pc), landPoint t (tc + (pc + d - whitelistStart))) := by
      simp only [passSpans]
      rw [if_neg hskip1, heff1, if_neg (by omega), if_pos hcase]
    rw [hpass]
    dsimp only
    rw [getExpiryLoop_of_landed _ t tc pc 3 _ _ (by omega)]
    have hv : tc + (pc + d - whitelistStart) = t + d := by rw [hpc]; ring
    rw [hv]
    have hl : landPoint t (t + d) = t + d := by
      unfold landPoint
      rw [if_neg (by omega)]
    rw [hl]
  · have hb1 : 0 < d - (whitelistEnd - pc) := by omega
    have hpass : passSpans t pc tc true [(whitelistStart, whitelistEnd)] d 0
        = (d - (whitelistEnd - pc), 0) := by
      simp only [passSpans]
      rw [if_neg hskip1, heff1, if_pos hb1, if_neg hcase]
    rw [hpass]
    dsimp only
    rw [getExpiryLoop_step _ t tc pc 2 false _ 0 hb1]
    have hstop2 : ¬ (0 < d - (whitelistEnd - pc) - (whitelistEnd - whitelistStart)) := by
      rw [hwE]
      omega
    have hland2 : d - (whitelistEnd - pc) ≤ whitelistEnd - whitelistStart := by
      rw [hwE]
      omega
    have hpass2 : passSpans t pc tc false [(whitelistStart, whitelistEnd)]
          (d - (whitelistEnd - pc)) 0
        = (d - (whitelistEnd - pc) - (whitelistEnd - whitelistStart),
           landPoint t (tc + (whitelistStart + (d - (whitelistEnd - pc)) - whitelistStart))) := by
      simp only [passSpans]
      rw [if_neg (by simp), effStart_false, if_neg hstop2, if_pos hland2]
    rw [hpass2]
    dsimp only
    rw [getExpiryLoop_of_landed _ t tc pc 2 _ _ (by omega)]
    have hv2 : tc + (whitelistStart + (d - (whitelistEnd - pc)) - whitelistStart)
        = t + d - day := by
      rw [hwE, hpc]
      ring
    rw [hv2]
    have hl2 : landPoint t (t + d - day) = t + d := by
      unfold landPoint
      rw [if_pos (by omega)]
      ring
    rw [hl2]

/-- C2, amended: for the node created at 2017-11-11T12:00:00Z, drain
timeout 300 seconds, unrestricted whitelist and now = creation, every
possible random draw yields an expiry within the half-open window from
creation + 12h up to (but excluding) creation + 24h. The upper bound
creation + 24h - 300s of the original claim is exceeded for draws just
below twelve hours, because the twelve-hour bias is added after the draw
was already bounded only by kickOffDeletionBy. -/
theorem c2_amended : ∀ r : ℤ, 0 ≤ r → r < 86100 * nsec →
    parseArguments "" "" = some ([(whitelistStart, whitelistEnd)], 86400) ∧
    ∃ x, getDesiredExpiry [(whitelistStart, whitelistEnd)] creation2017 creation2017 300 r 4
        = some x ∧ creation2017 + 43200 * nsec ≤ x ∧ x < creation2017 + 86400 * nsec := by
  intro r h0 hlt
  refine ⟨by decide, ?_⟩
  have hnsec : nsec = 1000000000 := rfl
  have hday : day = 86400000000000 := by norm_num [day, nsec]
  rw [hnsec] at hlt
  simp only [getDesiredExpiry]
  norm_num [nsec]
  by_cases hr : r < 43200000000000
  · rw [if_pos hr]
    exact ⟨creation2017 + (r + 43200000000000),
      getExpiryDate_fullday _ _ (by omega) (by omega), by omega, by omega⟩
  · rw [if_neg hr]
    exact ⟨creation2017 + r,
      getExpiryDate_fullday _ _ (by omega) (by omega), by omega, by omega⟩

/-- C2, witness for the amended statement at the random draw 0. -/
theorem c2_witness :
    parseArguments "" "" = some ([(whitelistStart, whitelistEnd)], 86400) ∧
    ∃ x, getDesiredExpiry [(whitelistStart, whitelistEnd)] creation2017 creation2017 300 0 4
        = some x ∧ creation2017 + 43200 * nsec ≤ x ∧ x < creation2017 + 86400 * nsec :=
  c2_amended 0 (le_refl 0) (by decide)

end GkePK
